import Mathlib

/-!
Shallow embedding of `src/memory_paging_simulator.c`, a fixed-size paging
simulator: a frame allocator over a free-frame pool, per-process page
tables, and a process registry.  C `int` values are embedded as `Nat`
(sizes, counts, frame indices — all validated positive or derived from
positive values in the source) and as `Int` where a genuinely signed value
flows in (`is_power_of_two`'s argument, process ids).  The interactive
input loops of the C file are the out-of-scope menu layer: each rejection
that makes the C code re-prompt is surfaced here as the corresponding
`CreationResult` error, with the state returned unchanged, mirroring the
early `return`s of `create_process`.  `rand()` is modelled as an explicit
byte oracle passed to `create_process`.
-/

namespace MemPager

/-- C: `is_power_of_two` (line 186): `(number > 0) && ((number & (number - 1)) == 0)`
on a C `int`, embedded with `Int.land` for `&`. -/
def is_power_of_two (number : Int) : Bool :=
  decide (number > 0) && (Int.land number (number - 1) == 0)

/-- C struct `Process`: id, size in bytes, page count, and the page table
mapping logical page `i` to physical frame `page_table[i]`. -/
structure Process where
  process_id : Int
  process_size : Nat
  number_of_pages : Nat
  page_table : List Nat
deriving DecidableEq

/-- C struct `PhysicalMemory`.  `memory` is the backing byte store
(`calloc(total_size, 1)`), `free_frames` the free-frame index array; only
its first `free_frame_count` entries are live (the C code never clears
popped entries, it only decrements the count). -/
structure PhysicalMemory where
  memory : List Nat
  total_size : Nat
  page_size : Nat
  number_of_frames : Nat
  free_frames : List Nat
  free_frame_count : Nat
deriving DecidableEq

/-- C struct `ProcessList`: growable process registry. -/
structure ProcessList where
  processes : List Process
  count : Nat
  capacity : Nat
deriving DecidableEq

/-- C: `initialize_physical_memory` (line 198): zeroed backing store,
`number_of_frames = total_size / page_size`, free pool `0, 1, ...,
number_of_frames - 1`, `free_frame_count = number_of_frames`.  (The fatal
`calloc`/`malloc` failure exits are not modelled.) -/
def initialize_physical_memory (total_size page_size : Nat) : PhysicalMemory :=
  { memory := List.replicate total_size 0
    total_size := total_size
    page_size := page_size
    number_of_frames := total_size / page_size
    free_frames := List.range (total_size / page_size)
    free_frame_count := total_size / page_size }

/-- C: `initialize_process_list` (line 230): empty registry with initial
capacity `INITIAL_PROCESS_LIST_CAPACITY = 10`. -/
def initialize_process_list : ProcessList :=
  { processes := [], count := 0, capacity := 10 }

/-- C: `allocate_frames` (line 250).  Returns `(none, unchanged state)` when
`free_frame_count < required_frames` (C returns 0).  Otherwise iteration `i`
of the loop reads `free_frames[free_frame_count - 1]` after `i` decrements,
i.e. `free_frames[free_frame_count - 1 - i]`, and the final state has the
count lowered by `required_frames` with the array untouched. -/
def allocate_frames (phys_mem : PhysicalMemory) (required_frames : Nat) :
    Option (List Nat) × PhysicalMemory :=
  if phys_mem.free_frame_count < required_frames then
    (none, phys_mem)
  else
    (some ((List.range required_frames).map
        (fun i => phys_mem.free_frames.getD (phys_mem.free_frame_count - 1 - i) 0)),
     { phys_mem with free_frame_count := phys_mem.free_frame_count - required_frames })

/-- C: line 336, `pages_needed = (int)ceil((double)size / phys_mem->page_size)`.
All quantities are validated C `int`s, hence below `2^31 < 2^53`: both
operands convert to `double` exactly, the IEEE division is correctly
rounded, and (as the quotient is within `2^31` of magnitude while the gap
from `size/page_size` to the next integer below its ceiling is at least
`1/page_size > 2^-31 > ulp`) `ceil` of the rounded quotient is the exact
real ceiling.  That exact value is `(size + page_size - 1) / page_size`. -/
def pages_needed (size page_size : Nat) : Nat :=
  (size + page_size - 1) / page_size

/-- C: inner copy loop of `create_process` (line 374): for logical page
`lpage` held in frame `frame_index`, copy byte `j` of the page while
`lpage * page_size + j < size` (the guard is monotone in `j`, so the C
loop exit and this conditional fold agree). -/
def copy_page (mem logical : List Nat) (page_size size frame_index lpage : Nat) :
    List Nat :=
  (List.range page_size).foldl
    (fun m j =>
      if lpage * page_size + j < size then
        m.set (frame_index * page_size + j) (logical.getD (lpage * page_size + j) 0)
      else m)
    mem

/-- C: outer copy loop of `create_process` (line 368): page `i` goes to
frame `allocated_frames[i]`. -/
def copy_to_frames (mem logical : List Nat) (page_size size : Nat)
    (allocated_frames : List Nat) : List Nat :=
  (List.range allocated_frames.length).foldl
    (fun m i => copy_page m logical page_size size (allocated_frames.getD i 0) i)
    mem

/-- C: the append at lines 383-402: double `capacity` when full, then store
the new process at index `count` and increment `count`.  (The fatal
`realloc` failure path is not modelled.) -/
def register (proc_list : ProcessList) (p : Process) : ProcessList :=
  let grown :=
    if proc_list.count ≥ proc_list.capacity then
      { proc_list with capacity := proc_list.capacity * 2 }
    else proc_list
  { grown with processes := grown.processes ++ [p], count := grown.count + 1 }

/-- Outcome of `create_process`: `ok`, or the three recoverable rejections
of the spec (`DuplicateId`, `InvalidSize`, `InsufficientFrames`). -/
inductive CreationResult where
  | ok
  | duplicateId
  | invalidSize
  | insufficientFrames
deriving DecidableEq

/-- C: `create_process` (line 273) with the interactive layer peeled off:
the duplicate-pid re-prompt becomes `duplicateId`, the size re-prompts
(power of two, `size <= max_process_size`) become `invalidSize`, a failed
`allocate_frames` becomes `insufficientFrames` — in each case the state is
returned unchanged, as the C early returns leave it.  On success the
logical buffer (bytes `rand i % 256`, mirroring `rand() % 256`) is copied
into the assigned frames and the process is appended to the registry. -/
def create_process (phys_mem : PhysicalMemory) (proc_list : ProcessList)
    (max_process_size : Nat) (pid : Int) (size : Nat) (rand : Nat → Nat) :
    CreationResult × PhysicalMemory × ProcessList :=
  if proc_list.processes.any (fun q => q.process_id == pid) then
    (.duplicateId, phys_mem, proc_list)
  else if !is_power_of_two (size : Int) || size > max_process_size then
    (.invalidSize, phys_mem, proc_list)
  else
    let pages := pages_needed size phys_mem.page_size
    match allocate_frames phys_mem pages with
    | (none, pm) => (.insufficientFrames, pm, proc_list)
    | (some allocated_frames, pm) =>
      let logical := (List.range size).map (fun i => rand i % 256)
      let pm :=
        { pm with memory := copy_to_frames pm.memory logical pm.page_size size allocated_frames }
      (.ok, pm,
       register proc_list
         { process_id := pid, process_size := size,
           number_of_pages := pages, page_table := allocated_frames })

/-- The live free pool: the first `free_frame_count` entries of
`free_frames`, exactly the entries the C code ever reads (lines 259 and
431-437 both bound their scans by `free_frame_count`). -/
def freePool (phys_mem : PhysicalMemory) : List Nat :=
  phys_mem.free_frames.take phys_mem.free_frame_count

/-- C: `view_physical_memory` (line 415), as the data it renders:
`(total_size, page_size, number_of_frames, free_frame_count, per-frame
free flag)`, frame `i` free iff some live `free_frames[j] = i`. -/
def memory_status (phys_mem : PhysicalMemory) :
    Nat × Nat × Nat × Nat × List Bool :=
  (phys_mem.total_size, phys_mem.page_size, phys_mem.number_of_frames,
   phys_mem.free_frame_count,
   (List.range phys_mem.number_of_frames).map (fun i => (freePool phys_mem).contains i))

/-- C: `view_page_table` (line 448), as the data it renders: the first
registered process with the given pid, as `(process_size, number_of_pages,
page table)`; `none` is the "not found" report. -/
def page_table_of (proc_list : ProcessList) (pid : Int) :
    Option (Nat × Nat × List Nat) :=
  match proc_list.processes.find? (fun p => p.process_id == pid) with
  | none => none
  | some p => some (p.process_size, p.number_of_pages, p.page_table)

/-- The whole simulation state main owns: physical memory plus registry. -/
structure SimState where
  phys_mem : PhysicalMemory
  proc_list : ProcessList
deriving DecidableEq

/-- One menu selection of main's loop (line 157): the two views and
process creation.  `rand` is the byte oracle for the created process. -/
inductive MenuOp where
  | viewMemory
  | createProcess (pid : Int) (size : Nat) (rand : Nat → Nat)
  | viewPageTable (pid : Int)

/-- One iteration of main's menu switch: the views take the state through
a `const` pointer and return it untouched; `create_process` updates both
components. -/
def step (max_process_size : Nat) (s : SimState) (op : MenuOp) : SimState :=
  match op with
  | .viewMemory => s
  | .createProcess pid size rand =>
    let r := create_process s.phys_mem s.proc_list max_process_size pid size rand
    { phys_mem := r.2.1, proc_list := r.2.2 }
  | .viewPageTable _ => s

/-- `k` successive single-frame `allocate_frames` calls, collecting the
returned indices in order; `none` as soon as one call fails. -/
def allocate_singles (phys_mem : PhysicalMemory) : Nat → Option (List Nat × PhysicalMemory)
  | 0 => some ([], phys_mem)
  | k + 1 =>
    match allocate_frames phys_mem 1 with
    | (none, _) => none
    | (some l, pm) =>
      match allocate_singles pm k with
      | none => none
      | some (ls, pm') => some (l ++ ls, pm')

/-- States reachable by the program: `initialize_physical_memory` and
`initialize_process_list` on the three validated configuration integers
(each a positive power of two, `page_size ≤ total_size`,
`max_process_size ≤ total_size`, exactly main's input checks), followed by
any sequence of `create_process` calls, successful or not. -/
inductive Reachable (max_process_size : Nat) : PhysicalMemory → ProcessList → Prop
  | init (total_size page_size : Nat)
      (ht : is_power_of_two (total_size : Int) = true)
      (hp : is_power_of_two (page_size : Int) = true)
      (hpt : page_size ≤ total_size)
      (hm : is_power_of_two (max_process_size : Int) = true)
      (hmt : max_process_size ≤ total_size) :
      Reachable max_process_size (initialize_physical_memory total_size page_size)
        initialize_process_list
  | step (pid : Int) (size : Nat) (rand : Nat → Nat) {pm : PhysicalMemory}
      {pl : ProcessList} :
      Reachable max_process_size pm pl →
      Reachable max_process_size
        (create_process pm pl max_process_size pid size rand).2.1
        (create_process pm pl max_process_size pid size rand).2.2


/-! ## Helper lemmas -/

lemma two_pow_land_pred (k : Nat) : 2 ^ k &&& (2 ^ k - 1) = 0 := by
  apply Nat.eq_of_testBit_eq
  intro i
  rw [Nat.testBit_land, Nat.testBit_two_pow, Nat.testBit_two_pow_sub_one, Nat.zero_testBit]
  by_cases h : k = i
  · subst h; simp
  · simp [h]

lemma pow_of_land_pred (m : Nat) : 0 < m → m &&& (m - 1) = 0 → ∃ k, m = 2 ^ k := by
  induction m using Nat.strong_induction_on with
  | _ m ih =>
    intro hm h
    rcases Nat.even_or_odd m with he | ho
    · obtain ⟨j, hj⟩ := he
      have hj2 : m = 2 * j := by omega
      have hjpos : 0 < j := by omega
      have hland : j &&& (j - 1) = 0 := by
        apply Nat.eq_of_testBit_eq
        intro i
        have h1 : j.testBit i = m.testBit (i + 1) := by
          rw [Nat.testBit_add_one]; congr 1; omega
        have h2 : (j - 1).testBit i = (m - 1).testBit (i + 1) := by
          rw [Nat.testBit_add_one]; congr 1; omega
        rw [Nat.testBit_land, h1, h2, ← Nat.testBit_land, h, Nat.zero_testBit, Nat.zero_testBit]
      obtain ⟨k, hk⟩ := ih j (by omega) hjpos hland
      exact ⟨k + 1, by rw [hj2, hk, Nat.pow_succ, Nat.mul_comm]⟩
    · obtain ⟨j, hj⟩ := ho
      have hj0 : j = 0 := by
        apply Nat.eq_of_testBit_eq
        intro i
        have h1 : m.testBit (i + 1) = j.testBit i := by
          rw [Nat.testBit_add_one]; congr 1; omega
        have h2 : (m - 1).testBit (i + 1) = j.testBit i := by
          rw [Nat.testBit_add_one]; congr 1; omega
        have h3 : (m &&& (m - 1)).testBit (i + 1) = false := by
          rw [h, Nat.zero_testBit]
        rw [Nat.testBit_land, h1, h2, Bool.and_self] at h3
        rw [h3, Nat.zero_testBit]
      exact ⟨0, by omega⟩

lemma isPow_int_iff_land (n : Int) :
    is_power_of_two n = true ↔ 0 < n ∧ Int.land n (n - 1) = 0 := by
  simp [is_power_of_two]

lemma isPow_int_iff_pow (n : Int) :
    is_power_of_two n = true ↔ ∃ k : Nat, n = 2 ^ k := by
  rw [isPow_int_iff_land]
  constructor
  · rintro ⟨hn, hl⟩
    obtain ⟨m, rfl⟩ : ∃ m : Nat, n = (m : Int) := ⟨n.toNat, by omega⟩
    have hmpos : 0 < m := by exact_mod_cast hn
    have hcast : (m : Int) - 1 = ((m - 1 : Nat) : Int) := by omega
    rw [hcast] at hl
    have hnat : Int.land (m : Int) ((m - 1 : Nat) : Int) = ((m &&& (m - 1) : Nat) : Int) := rfl
    rw [hnat] at hl
    have hland : m &&& (m - 1) = 0 := by exact_mod_cast hl
    obtain ⟨k, hk⟩ := pow_of_land_pred m hmpos hland
    exact ⟨k, by rw [hk]; push_cast; ring⟩
  · rintro ⟨k, rfl⟩
    refine ⟨by positivity, ?_⟩
    have h1 : (2 : Int) ^ k = ((2 ^ k : Nat) : Int) := by push_cast; ring
    rw [h1]
    have h2 : ((2 ^ k : Nat) : Int) - 1 = ((2 ^ k - 1 : Nat) : Int) := by
      have h3 : 1 ≤ 2 ^ k := Nat.one_le_two_pow
      omega
    rw [h2]
    have hnat : Int.land ((2 ^ k : Nat) : Int) ((2 ^ k - 1 : Nat) : Int)
        = ((2 ^ k &&& (2 ^ k - 1) : Nat) : Int) := rfl
    rw [hnat, two_pow_land_pred]
    rfl

lemma isPow_nat_iff (n : Nat) :
    is_power_of_two (n : Int) = true ↔ ∃ k, n = 2 ^ k := by
  rw [isPow_int_iff_pow]
  constructor
  · rintro ⟨k, hk⟩
    exact ⟨k, by exact_mod_cast hk⟩
  · rintro ⟨k, rfl⟩
    exact ⟨k, by push_cast; ring⟩

lemma isPow_pos {n : Nat} (h : is_power_of_two (n : Int) = true) : 0 < n := by
  obtain ⟨k, rfl⟩ := (isPow_nat_iff n).mp h
  positivity

lemma pages_needed_eq_ceil (s p : Nat) (hp : 0 < p) :
    (pages_needed s p : ℤ) = ⌈(s : ℚ) / (p : ℚ)⌉ := by
  have hpq : (0 : ℚ) < (p : ℚ) := by exact_mod_cast hp
  have h1 : (s + p - 1) / p * p + (s + p - 1) % p = s + p - 1 := Nat.div_add_mod' _ _
  have hmlt : (s + p - 1) % p < p := Nat.mod_lt _ hp
  have hle : s ≤ pages_needed s p * p := by unfold pages_needed; omega
  have hlt : pages_needed s p * p < s + p := by unfold pages_needed; omega
  symm
  rw [Int.ceil_eq_iff]
  constructor
  · rw [lt_div_iff₀ hpq]
    have hlt2 : ((pages_needed s p * p : Nat) : ℚ) < ((s + p : Nat) : ℚ) := by
      exact_mod_cast hlt
    push_cast at hlt2 ⊢
    linarith
  · rw [div_le_iff₀ hpq]
    have hle2 : ((s : Nat) : ℚ) ≤ ((pages_needed s p * p : Nat) : ℚ) := by exact_mod_cast hle
    push_cast at hle2 ⊢
    linarith

lemma pages_needed_dvd (s p : Nat) (hp : 0 < p) (hd : p ∣ s) :
    pages_needed s p = s / p := by
  obtain ⟨q, rfl⟩ := hd
  unfold pages_needed
  rw [Nat.mul_div_cancel_left q hp]
  have h2 : p * q + p - 1 = (p - 1) + p * q := by omega
  rw [h2, Nat.add_mul_div_left _ _ hp, Nat.div_eq_of_lt (by omega)]
  omega

lemma pages_needed_succ (p : Nat) (hp : 0 < p) :
    pages_needed (p + 1) p = 2 := by
  unfold pages_needed
  have h2 : p + 1 + p - 1 = p * 2 := by omega
  rw [h2, Nat.mul_div_cancel_left _ hp]

/-! ## Claim theorems -/

/-- C1: for a validated process size (positive power of two, at most
`max_process_size`) and a configured page size (a power of two, so
positive), `pages_needed` is the exact real-valued ceiling of
`size / page_size`: it equals `⌈size / page_size⌉` over ℚ, equals
`size / page_size` exactly when `page_size` divides `size` (never one
extra page), and maps `size = page_size + 1` to exactly 2 pages. -/
theorem claim_C1_pages_needed_exact_ceiling
    (size page_size max_process_size : Nat)
    (hs : is_power_of_two (size : Int) = true)
    (hsm : size ≤ max_process_size)
    (hp : is_power_of_two (page_size : Int) = true) :
    ((pages_needed size page_size : ℤ) = ⌈(size : ℚ) / (page_size : ℚ)⌉) ∧
    (page_size ∣ size → pages_needed size page_size = size / page_size) ∧
    pages_needed (page_size + 1) page_size = 2 := by
  have hppos := isPow_pos hp
  exact ⟨pages_needed_eq_ceil _ _ hppos, fun hd => pages_needed_dvd _ _ hppos hd,
    pages_needed_succ _ hppos⟩

/-- C1, witness: the theorem applied at `size = 512`, `page_size = 256`,
`max_process_size = 512`. -/
theorem claim_C1_witness :
    ((pages_needed 512 256 : ℤ) = ⌈((512 : Nat) : ℚ) / ((256 : Nat) : ℚ)⌉) ∧
    (256 ∣ 512 → pages_needed 512 256 = 512 / 256) ∧
    pages_needed (256 + 1) 256 = 2 :=
  claim_C1_pages_needed_exact_ceiling 512 256 512 (by decide) (by decide) (by decide)

/-- C4: on any allocator state whose `free_frame_count` is below the
request `r`, `allocate_frames` reports failure (`none`, the C `return 0`,
surfaced by `create_process` as `InsufficientFrames`) and returns the
state unchanged: same `free_frame_count`, same live free pool, no partial
allocation. -/
theorem claim_C4_insufficient_leaves_pool_unchanged
    (phys_mem : PhysicalMemory) (r : Nat)
    (h : phys_mem.free_frame_count < r) :
    allocate_frames phys_mem r = (none, phys_mem) ∧
    freePool (allocate_frames phys_mem r).2 = freePool phys_mem ∧
    (allocate_frames phys_mem r).2.free_frame_count = phys_mem.free_frame_count := by
  unfold allocate_frames
  rw [if_pos h]
  exact ⟨rfl, rfl, rfl⟩

/-- C4, witness: the theorem applied to the freshly initialized 4-frame
memory (`initialize(8, 2)`) and the request `r = 5 > 4`. -/
theorem claim_C4_witness :
    allocate_frames (initialize_physical_memory 8 2) 5 =
      (none, initialize_physical_memory 8 2) ∧
    freePool (allocate_frames (initialize_physical_memory 8 2) 5).2 =
      freePool (initialize_physical_memory 8 2) ∧
    (allocate_frames (initialize_physical_memory 8 2) 5).2.free_frame_count =
      (initialize_physical_memory 8 2).free_frame_count :=
  claim_C4_insufficient_leaves_pool_unchanged (initialize_physical_memory 8 2) 5 (by decide)

/-- C8: `is_power_of_two n` is true iff `n > 0` and `n & (n - 1) = 0`
(the C expression verbatim), and that holds exactly when `n` is a power
of two `2 ^ k` — so it is false for every `n ≤ 0` and every positive
non-power.  The function is pure, so it has no side effects. -/
theorem claim_C8_is_power_of_two_correct (n : Int) :
    (is_power_of_two n = true ↔ 0 < n ∧ Int.land n (n - 1) = 0) ∧
    (is_power_of_two n = true ↔ ∃ k : Nat, n = 2 ^ k) :=
  ⟨isPow_int_iff_land n, isPow_int_iff_pow n⟩


lemma getD_range {F i : Nat} (h : i < F) : (List.range F).getD i 0 = i := by
  simp [List.getD_eq_getElem?_getD, List.getElem?_range, h]

lemma map_range_sub_eq_reverse_range' (k c : Nat) (hkc : k ≤ c) :
    (List.range k).map (fun i => c - 1 - i) = (List.range' (c - k) k).reverse := by
  induction k with
  | zero => simp
  | succ k ih =>
    rw [List.range_succ, List.map_append, ih (le_trans (Nat.le_succ k) hkc)]
    have h1 : List.range' (c - (k + 1)) (k + 1) = (c - (k + 1)) :: List.range' (c - k) k := by
      have h2 : c - (k + 1) + 1 = c - k := by omega
      rw [List.range'_succ, h2]
    rw [h1, List.reverse_cons]
    simp only [List.map_cons, List.map_nil]
    have hx : c - 1 - k = c - (k + 1) := by omega
    rw [hx]

lemma allocate_frames_on_range (pm : PhysicalMemory) (F c k : Nat)
    (hf : pm.free_frames = List.range F) (hc : pm.free_frame_count = c)
    (hcF : c ≤ F) (hk : k ≤ c) :
    allocate_frames pm k =
      (some ((List.range' (c - k) k).reverse),
       { pm with free_frame_count := c - k }) := by
  unfold allocate_frames
  rw [hc, hf, if_neg (by omega)]
  refine congrArg (fun l => (some l, _)) ?_
  rw [← map_range_sub_eq_reverse_range' k c hk]
  apply List.map_congr_left
  intro i hi
  have hik : i < k := List.mem_range.mp hi
  exact getD_range (by omega)

lemma allocate_singles_on_range (k : Nat) :
    ∀ (pm : PhysicalMemory) (F c : Nat),
    pm.free_frames = List.range F → pm.free_frame_count = c → c ≤ F → k ≤ c →
    allocate_singles pm k =
      some ((List.range k).map (fun i => c - 1 - i),
        { pm with free_frame_count := c - k }) := by
  induction k with
  | zero =>
    intro pm F c hf hc hcF hk
    simp only [allocate_singles, List.range_zero, List.map_nil]
    have h0 : c - 0 = pm.free_frame_count := by omega
    rw [h0]
  | succ k ih =>
    intro pm F c hf hc hcF hk
    have h1 : allocate_frames pm 1 =
        (some ((List.range' (c - 1) 1).reverse), { pm with free_frame_count := c - 1 }) :=
      allocate_frames_on_range pm F c 1 hf hc hcF (by omega)
    simp only [allocate_singles, h1]
    have h2 := ih { pm with free_frame_count := c - 1 } F (c - 1) hf rfl (by omega) (by omega)
    rw [h2]
    have h3 : c - 1 - k = c - (k + 1) := by omega
    simp only [h3]
    refine congrArg (fun l => some (l, _)) ?_
    rw [List.range'_one, List.reverse_cons, List.reverse_nil, List.nil_append]
    rw [List.range_succ_eq_map, List.map_cons, List.map_map]
    simp only [Nat.sub_zero, List.singleton_append]
    congr 1
    apply List.map_congr_left
    intro i hi
    simp only [Function.comp]
    omega

/-- C2: on the freshly initialized allocator with
`F = total_size / page_size` frames, a single `allocate_frames` request
for `k ≤ F` frames succeeds and returns exactly the indices
`F-1, F-2, ..., F-k` in that order (last-added-first-removed stack
order), leaving `free_frame_count = F - k`; and `k` successive
single-frame allocations return the same indices in the same order with
the same final `free_frame_count`. -/
theorem claim_C2_stack_order (total_size page_size k : Nat)
    (hk : k ≤ total_size / page_size) :
    allocate_frames (initialize_physical_memory total_size page_size) k =
      (some ((List.range k).map (fun i => total_size / page_size - 1 - i)),
       { initialize_physical_memory total_size page_size with
           free_frame_count := total_size / page_size - k }) ∧
    allocate_singles (initialize_physical_memory total_size page_size) k =
      some ((List.range k).map (fun i => total_size / page_size - 1 - i),
        { initialize_physical_memory total_size page_size with
            free_frame_count := total_size / page_size - k }) := by
  constructor
  · rw [allocate_frames_on_range (initialize_physical_memory total_size page_size)
      (total_size / page_size) (total_size / page_size) k rfl rfl (le_refl _) hk]
    rw [map_range_sub_eq_reverse_range' k _ hk]
  · exact allocate_singles_on_range k (initialize_physical_memory total_size page_size)
      (total_size / page_size) (total_size / page_size) rfl rfl (le_refl _) hk

/-- C2, witness: the theorem applied to `initialize(8, 2)` (4 frames) and
`k = 3`: frames 3, 2, 1 in stack order, one frame left free. -/
theorem claim_C2_witness :
    allocate_frames (initialize_physical_memory 8 2) 3 =
      (some ((List.range 3).map (fun i => 8 / 2 - 1 - i)),
       { initialize_physical_memory 8 2 with free_frame_count := 8 / 2 - 3 }) ∧
    allocate_singles (initialize_physical_memory 8 2) 3 =
      some ((List.range 3).map (fun i => 8 / 2 - 1 - i),
        { initialize_physical_memory 8 2 with free_frame_count := 8 / 2 - 3 }) :=
  claim_C2_stack_order 8 2 3 (by decide)

/-- C6: for powers of two `total_size ≥ page_size > 0`, initialization
yields `number_of_frames = total_size / page_size` with the division
exact (`page_size * (total_size / page_size) = total_size`, zero
remainder — power-of-two divisibility), a free pool holding exactly the
indices `0 .. number_of_frames - 1`, and
`free_frame_count = number_of_frames`. -/
theorem claim_C6_initialization_exact
    (total_size page_size : Nat)
    (ht : is_power_of_two (total_size : Int) = true)
    (hp : is_power_of_two (page_size : Int) = true)
    (hpt : page_size ≤ total_size) :
    (initialize_physical_memory total_size page_size).number_of_frames
        = total_size / page_size ∧
    page_size * (total_size / page_size) = total_size ∧
    freePool (initialize_physical_memory total_size page_size)
        = List.range (total_size / page_size) ∧
    (initialize_physical_memory total_size page_size).free_frame_count
        = total_size / page_size := by
  obtain ⟨b, rfl⟩ := (isPow_nat_iff total_size).mp ht
  obtain ⟨a, rfl⟩ := (isPow_nat_iff page_size).mp hp
  have hab : a ≤ b := (Nat.pow_le_pow_iff_right (by norm_num)).mp hpt
  have hdvd : (2 : Nat) ^ a ∣ 2 ^ b := pow_dvd_pow 2 hab
  refine ⟨rfl, Nat.mul_div_cancel' hdvd, ?_, rfl⟩
  unfold freePool initialize_physical_memory
  simp [List.take_range]

/-- C6, witness: the theorem applied at `total_size = 1024`,
`page_size = 256` (the spec's end-to-end example: 4 frames). -/
theorem claim_C6_witness :
    (initialize_physical_memory 1024 256).number_of_frames = 1024 / 256 ∧
    256 * (1024 / 256) = 1024 ∧
    freePool (initialize_physical_memory 1024 256) = List.range (1024 / 256) ∧
    (initialize_physical_memory 1024 256).free_frame_count = 1024 / 256 :=
  claim_C6_initialization_exact 1024 256 (by decide) (by decide) (by decide)

lemma allocate_frames_count_le (phys_mem : PhysicalMemory) (r : Nat) :
    (allocate_frames phys_mem r).2.free_frame_count ≤ phys_mem.free_frame_count := by
  unfold allocate_frames
  split
  · exact le_refl _
  · exact Nat.sub_le _ _

lemma create_process_count_le (phys_mem : PhysicalMemory) (proc_list : ProcessList)
    (max_process_size : Nat) (pid : Int) (size : Nat) (rand : Nat → Nat) :
    (create_process phys_mem proc_list max_process_size pid size rand).2.1.free_frame_count
      ≤ phys_mem.free_frame_count := by
  unfold create_process
  split
  · exact le_refl _
  · split
    · exact le_refl _
    · dsimp only
      have h := allocate_frames_count_le phys_mem (pages_needed size phys_mem.page_size)
      rcases hA : allocate_frames phys_mem (pages_needed size phys_mem.page_size) with ⟨o, pm2⟩
      rw [hA] at h
      cases o with
      | none => exact h
      | some l => exact h

/-- C10: monotone depletion — one iteration of the menu loop never
increases `free_frame_count`, whatever the operation: the two views
return the state untouched, and `create_process` (whether it succeeds,
and whatever error it fails with) never returns a frame to the pool. -/
theorem claim_C10_monotone_depletion (max_process_size : Nat) (s : SimState) (op : MenuOp) :
    (step max_process_size s op).phys_mem.free_frame_count
      ≤ s.phys_mem.free_frame_count := by
  cases op with
  | viewMemory => exact le_refl _
  | createProcess pid size rand => exact create_process_count_le _ _ _ _ _ _
  | viewPageTable pid => exact le_refl _


lemma register_count (proc_list : ProcessList) (p : Process) :
    (register proc_list p).count = proc_list.count + 1 := by
  unfold register
  dsimp only
  split <;> rfl

lemma any_pid_false {proc_list : ProcessList} {pid : Int}
    (h : ∀ q ∈ proc_list.processes, q.process_id ≠ pid) :
    (proc_list.processes.any fun q => q.process_id == pid) = false := by
  simp only [List.any_eq_false, beq_iff_eq]
  exact h

/-- C3: atomicity of the `InsufficientFrames` failure.  In any state where
the earlier validations pass (fresh pid, valid size) but the allocator
cannot supply `pages_needed` frames, `create_process` returns exactly
`insufficientFrames` with the physical memory and the registry both
unchanged: no process appended, no count change, no frame consumed, no
partial state. -/
theorem claim_C3_insufficient_frames_atomic
    (phys_mem : PhysicalMemory) (proc_list : ProcessList)
    (max_process_size : Nat) (pid : Int) (size : Nat) (rand : Nat → Nat)
    (hdup : ∀ q ∈ proc_list.processes, q.process_id ≠ pid)
    (hpow : is_power_of_two (size : Int) = true)
    (hmax : size ≤ max_process_size)
    (hins : phys_mem.free_frame_count < pages_needed size phys_mem.page_size) :
    create_process phys_mem proc_list max_process_size pid size rand =
      (.insufficientFrames, phys_mem, proc_list) := by
  have h1 := any_pid_false hdup
  have h2 : (!is_power_of_two (size : Int) || decide (size > max_process_size)) = false := by
    rw [hpow]
    simp only [Bool.not_true, Bool.false_or, decide_eq_false_iff_not]
    omega
  have h3 : allocate_frames phys_mem (pages_needed size phys_mem.page_size)
      = (none, phys_mem) := by
    unfold allocate_frames
    rw [if_pos hins]
  simp only [create_process, h1, h2, Bool.false_eq_true, if_false]
  rw [h3]

/-- C3, witness: the theorem applied to `initialize(4, 4)` (one free
frame) and a fresh pid asking for `size = 8` (2 pages > 1 free frame). -/
theorem claim_C3_witness :
    create_process (initialize_physical_memory 4 4) initialize_process_list 8 1 8
        (fun _ => 0) =
      (.insufficientFrames, initialize_physical_memory 4 4, initialize_process_list) :=
  claim_C3_insufficient_frames_atomic (initialize_physical_memory 4 4)
    initialize_process_list 8 1 8 (fun _ => 0)
    (by decide) (by decide) (by decide) (by decide)

/-- C7: a `create_process` call whose pid is already registered is
rejected as `DuplicateId` with the whole state — in particular the
registry and the frame pool — unchanged, so before any frame allocation;
and a call with a fresh pid, a valid size and enough free frames succeeds
and grows the registry count by exactly one. -/
theorem claim_C7_duplicate_pid_rejected
    (phys_mem : PhysicalMemory) (proc_list : ProcessList)
    (max_process_size : Nat) (pid : Int) (size : Nat) (rand : Nat → Nat) :
    ((∃ q ∈ proc_list.processes, q.process_id = pid) →
      create_process phys_mem proc_list max_process_size pid size rand =
        (.duplicateId, phys_mem, proc_list)) ∧
    ((∀ q ∈ proc_list.processes, q.process_id ≠ pid) →
      is_power_of_two (size : Int) = true →
      size ≤ max_process_size →
      pages_needed size phys_mem.page_size ≤ phys_mem.free_frame_count →
      (create_process phys_mem proc_list max_process_size pid size rand).1 =
          .ok ∧
        (create_process phys_mem proc_list max_process_size pid size rand).2.2.count =
          proc_list.count + 1) := by
  constructor
  · intro hdup
    have h1 : (proc_list.processes.any fun q => q.process_id == pid) = true := by
      simp only [List.any_eq_true, beq_iff_eq]
      exact hdup
    simp only [create_process, h1, if_true]
  · intro hfresh hpow hmax hsuff
    have h1 := any_pid_false hfresh
    have h2 : (!is_power_of_two (size : Int) || decide (size > max_process_size)) = false := by
      rw [hpow]
      simp only [Bool.not_true, Bool.false_or, decide_eq_false_iff_not]
      omega
    have h3 : allocate_frames phys_mem (pages_needed size phys_mem.page_size) =
        (some ((List.range (pages_needed size phys_mem.page_size)).map
          (fun i => phys_mem.free_frames.getD (phys_mem.free_frame_count - 1 - i) 0)),
         { phys_mem with free_frame_count :=
             phys_mem.free_frame_count - pages_needed size phys_mem.page_size }) := by
      unfold allocate_frames
      rw [if_neg (by omega)]
    simp only [create_process, h1, h2, Bool.false_eq_true, if_false]
    rw [h3]
    exact ⟨rfl, register_count _ _⟩

/-- C7, witness: the theorem applied twice over `initialize(8, 2)`: on a
registry already holding pid 1 the call is rejected with the state
unchanged, and on the empty registry a fresh pid-1 call succeeds and
grows the count to 1. -/
theorem claim_C7_witness :
    create_process (initialize_physical_memory 8 2)
        ⟨[⟨1, 2, 1, [3]⟩], 1, 10⟩ 8 1 4 (fun _ => 0) =
      (.duplicateId, initialize_physical_memory 8 2, ⟨[⟨1, 2, 1, [3]⟩], 1, 10⟩) ∧
    ((create_process (initialize_physical_memory 8 2)
        initialize_process_list 8 1 4 (fun _ => 0)).1 = .ok ∧
      (create_process (initialize_physical_memory 8 2)
        initialize_process_list 8 1 4 (fun _ => 0)).2.2.count =
        initialize_process_list.count + 1) :=
  ⟨(claim_C7_duplicate_pid_rejected (initialize_physical_memory 8 2)
      ⟨[⟨1, 2, 1, [3]⟩], 1, 10⟩ 8 1 4 (fun _ => 0)).1 (by decide),
   (claim_C7_duplicate_pid_rejected (initialize_physical_memory 8 2)
      initialize_process_list 8 1 4 (fun _ => 0)).2
      (by decide) (by decide) (by decide) (by decide)⟩


lemma register_processes (proc_list : ProcessList) (p : Process) :
    (register proc_list p).processes = proc_list.processes ++ [p] := by
  unfold register
  dsimp only
  split <;> rfl

lemma descending_extend (F c k : Nat) (hk : k ≤ c) (hc : c ≤ F) :
    (List.range' c (F - c)).reverse ++ (List.range' (c - k) k).reverse =
    (List.range' (c - k) (F - (c - k))).reverse := by
  rw [← List.reverse_append]
  congr 1
  have h6 := List.range'_append (c - k) k (F - c) 1
  rw [show c - k + 1 * k = c from by omega] at h6
  rw [h6]
  congr 1
  omega

/-- The allocator/registry invariant every reachable state satisfies: the
free-frame array is still `0, ..., number_of_frames - 1` (the C code never
writes it after initialization), the live prefix length is in range, the
page size is positive, the registered page tables concatenate to exactly
the descending run `number_of_frames - 1, ..., free_frame_count` (the
frames popped so far, in pop order), and each process records its page
table's length as its page count. -/
def Inv (pm : PhysicalMemory) (pl : ProcessList) : Prop :=
  pm.free_frames = List.range pm.number_of_frames ∧
  pm.free_frame_count ≤ pm.number_of_frames ∧
  0 < pm.page_size ∧
  (pl.processes.map Process.page_table).flatten =
    (List.range' pm.free_frame_count
      (pm.number_of_frames - pm.free_frame_count)).reverse ∧
  ∀ p ∈ pl.processes, p.number_of_pages = p.page_table.length

lemma inv_init (total_size page_size : Nat) (hp : 0 < page_size) :
    Inv (initialize_physical_memory total_size page_size) initialize_process_list := by
  refine ⟨rfl, le_refl _, hp, ?_, ?_⟩
  · simp [initialize_process_list, initialize_physical_memory, Nat.sub_self]
  · intro q hq
    cases hq

lemma inv_preserved (pm : PhysicalMemory) (pl : ProcessList)
    (max_process_size : Nat) (pid : Int) (size : Nat) (rand : Nat → Nat)
    (h : Inv pm pl) :
    Inv (create_process pm pl max_process_size pid size rand).2.1
      (create_process pm pl max_process_size pid size rand).2.2 := by
  obtain ⟨hf, hcF, hps, hflat, hlen⟩ := h
  unfold create_process
  split
  · exact ⟨hf, hcF, hps, hflat, hlen⟩
  split
  · exact ⟨hf, hcF, hps, hflat, hlen⟩
  dsimp only
  rcases hA : allocate_frames pm (pages_needed size pm.page_size) with ⟨o, pm2⟩
  unfold allocate_frames at hA
  by_cases hins : pm.free_frame_count < pages_needed size pm.page_size
  · rw [if_pos hins] at hA
    injection hA with hA1 hA2
    subst hA1
    subst hA2
    exact ⟨hf, hcF, hps, hflat, hlen⟩
  · rw [if_neg hins] at hA
    injection hA with hA1 hA2
    subst hA1
    subst hA2
    have hk_le : pages_needed size pm.page_size ≤ pm.free_frame_count := by omega
    have htable : (List.range (pages_needed size pm.page_size)).map
        (fun i => pm.free_frames.getD (pm.free_frame_count - 1 - i) 0) =
        (List.range' (pm.free_frame_count - pages_needed size pm.page_size)
          (pages_needed size pm.page_size)).reverse := by
      rw [← map_range_sub_eq_reverse_range' _ _ hk_le]
      apply List.map_congr_left
      intro i hi
      have hik : i < pages_needed size pm.page_size := List.mem_range.mp hi
      rw [hf]
      exact getD_range (by omega)
    refine ⟨hf, by dsimp only; omega, hps, ?_, ?_⟩
    · rw [register_processes]
      dsimp only
      rw [List.map_append, List.flatten_append]
      simp only [List.map_cons, List.map_nil, List.flatten_cons, List.flatten_nil,
        List.append_nil]
      rw [hflat, htable]
      exact descending_extend pm.number_of_frames pm.free_frame_count
        (pages_needed size pm.page_size) hk_le hcF
    · rw [register_processes]
      intro q hq
      rcases List.mem_append.mp hq with hq1 | hq2
      · exact hlen q hq1
      · rcases List.mem_singleton.mp hq2 with rfl
        dsimp only
        rw [htable]
        simp [List.length_reverse, List.length_range']

lemma reachable_inv (max_process_size : Nat) (pm : PhysicalMemory) (pl : ProcessList)
    (h : Reachable max_process_size pm pl) : Inv pm pl := by
  induction h with
  | init t p ht hp hpt hm hmt => exact inv_init t p (isPow_pos hp)
  | step pid size rand hr ih => exact inv_preserved _ _ _ _ _ _ ih

/-- C5: exclusive frame reservation.  In every state reachable from
initialization by `create_process` calls, no registered page table holds
a frame index twice, the page tables of distinct registered processes are
pairwise disjoint, and no index in a registered page table is in the live
free pool.  (With no reclaim path — C10 — frames then stay bound to their
process for the simulation's lifetime.) -/
theorem claim_C5_exclusive_reservation (max_process_size : Nat)
    (pm : PhysicalMemory) (pl : ProcessList)
    (h : Reachable max_process_size pm pl) :
    (∀ p ∈ pl.processes, p.page_table.Nodup) ∧
    List.Pairwise (fun p q => ∀ f ∈ p.page_table, f ∉ q.page_table) pl.processes ∧
    (∀ p ∈ pl.processes, ∀ f ∈ p.page_table, f ∉ freePool pm) := by
  obtain ⟨hf, hcF, hps, hflat, hlen⟩ := reachable_inv _ _ _ h
  have hnodup : (pl.processes.map Process.page_table).flatten.Nodup := by
    rw [hflat, List.nodup_reverse]
    exact List.nodup_range' _ _
  obtain ⟨hEach, hDisj⟩ := List.nodup_flatten.mp hnodup
  refine ⟨?_, ?_, ?_⟩
  · intro p hp2
    exact hEach _ (List.mem_map_of_mem _ hp2)
  · have hpm := List.pairwise_map.mp hDisj
    refine hpm.imp ?_
    intro a b hd f hf2
    exact hd hf2
  · intro p hp2 f hf2 hfree
    have hmem : f ∈ (pl.processes.map Process.page_table).flatten := by
      rw [List.mem_flatten]
      exact ⟨p.page_table, List.mem_map_of_mem _ hp2, hf2⟩
    rw [hflat, List.mem_reverse, List.mem_range'_1] at hmem
    unfold freePool at hfree
    rw [hf, List.take_range] at hfree
    have hlt : f < pm.free_frame_count ⊓ pm.number_of_frames := List.mem_range.mp hfree
    have hmin : pm.free_frame_count ⊓ pm.number_of_frames ≤ pm.free_frame_count :=
      inf_le_left
    omega

/-- C5, witness: the theorem applied to the reachable state after
`initialize(8, 2, 4)` and one successful `create_process(1, 4)`. -/
theorem claim_C5_witness :
    (∀ p ∈ ((create_process (initialize_physical_memory 8 2) initialize_process_list
        4 1 4 (fun _ => 0)).2.2).processes, p.page_table.Nodup) ∧
    List.Pairwise (fun p q => ∀ f ∈ p.page_table, f ∉ q.page_table)
      ((create_process (initialize_physical_memory 8 2) initialize_process_list
        4 1 4 (fun _ => 0)).2.2).processes ∧
    (∀ p ∈ ((create_process (initialize_physical_memory 8 2) initialize_process_list
        4 1 4 (fun _ => 0)).2.2).processes, ∀ f ∈ p.page_table,
      f ∉ freePool ((create_process (initialize_physical_memory 8 2)
        initialize_process_list 4 1 4 (fun _ => 0)).2.1)) :=
  claim_C5_exclusive_reservation 4 _ _
    (Reachable.step 1 4 (fun _ => 0)
      (Reachable.init 8 2 (by decide) (by decide) (by decide) (by decide) (by decide)))

/-- C9: frame conservation.  In every reachable state,
`free_frame_count` plus the sum of `number_of_pages` over all registered
processes equals `number_of_frames`: every frame is free or accounted for
by exactly one page-table entry. -/
theorem claim_C9_frame_conservation (max_process_size : Nat)
    (pm : PhysicalMemory) (pl : ProcessList)
    (h : Reachable max_process_size pm pl) :
    pm.free_frame_count + (pl.processes.map Process.number_of_pages).sum =
      pm.number_of_frames := by
  obtain ⟨hf, hcF, hps, hflat, hlen⟩ := reachable_inv _ _ _ h
  have h1 : pl.processes.map Process.number_of_pages =
      pl.processes.map (fun p => p.page_table.length) :=
    List.map_congr_left (fun p hp2 => hlen p hp2)
  have h2 : (pl.processes.map (fun p => p.page_table.length)).sum =
      (pl.processes.map Process.page_table).flatten.length := by
    rw [List.length_flatten, List.map_map]
    rfl
  rw [h1, h2, hflat]
  rw [List.length_reverse, List.length_range']
  omega

/-- C9, witness: the theorem applied to the reachable state after
`initialize(16, 4, 8)` and one successful `create_process(7, 8)`
(2 of the 4 frames consumed). -/
theorem claim_C9_witness :
    ((create_process (initialize_physical_memory 16 4) initialize_process_list
        8 7 8 (fun _ => 0)).2.1).free_frame_count +
      ((((create_process (initialize_physical_memory 16 4) initialize_process_list
        8 7 8 (fun _ => 0)).2.2).processes).map Process.number_of_pages).sum =
      ((create_process (initialize_physical_memory 16 4) initialize_process_list
        8 7 8 (fun _ => 0)).2.1).number_of_frames :=
  claim_C9_frame_conservation 8 _ _
    (Reachable.step 7 8 (fun _ => 0)
      (Reachable.init 16 4 (by decide) (by decide) (by decide) (by decide) (by decide)))

end MemPager
